import Mathlib

/-!
Verification development for the rama middleware toolkit.

This file embeds, as executable Lean definitions, the parts of the
repository that the verified properties speak about:

* the retry Policy engine (spec section 4.3; the engine's code is exercised
  by `src/service/layer/retry/tests.rs`),
* the connection-driver error classification and the cancellation race of
  `rama-http-backend/src/server/hyper_conn.rs`,
* the credential validators of `rama-core/src/net/user/auth.rs`,
* the byte-counting stream wrapper of `src/transport/bytes/tracker.rs`,
* the request-context derivation of `src/http/request_context.rs`.

Theorems about these definitions follow after all the definitions.
-/

namespace Rama

/-! ### Retry engine

Results of a service call are `Except Err Res` (Rust `Result<Res, Err>`).
Services and policies in the repository are stateful objects (they hold
counters, flags, remaining-attempt budgets behind atomics/mutexes); we
embed them as explicit state machines: a service carries a state of type
`Sσ`, a policy a state of type `Pσ`, and each call returns the new state
next to its visible output.  The per-call `Context` is an opaque type
parameter `G`: the engine only moves it around and clones it, and cloning
a pure Lean value is the identity. -/

/-- The `PolicyResult` tagged union of the retry engine: either continue
the loop with this context/request, or terminate returning this result. -/
inductive PolicyResult (G Req Res Err : Type) : Type
  | retry (ctx : G) (req : Req)
  | abort (result : Except Err Res)

/-- A retry `Policy`: `retry` classifies an outcome (possibly updating the
policy's internal state and mutating context/request for the next attempt),
`clone_input` proactively clones the input pair, returning `none` when the
request cannot be replayed.  `clone_input` takes the state by shared
reference in the source and hence does not update it. -/
structure Policy (G Req Res Err Pσ : Type) where
  retry : Pσ → G → Req → Except Err Res → Pσ × PolicyResult G Req Res Err
  clone_input : Pσ → G → Req → Option (G × Req)

/-- A `Service`: consumes a context and a request and produces a result,
threading its internal state explicitly. -/
structure Service (G Req Res Err Sσ : Type) where
  serve : Sσ → G → Req → Sσ × Except Err Res

/-- Modelled from the spec: the retry engine (`Retry::serve`, spec section
4.3), whose implementation file is not among the provided sources (only its
test suite is).  Per loop iteration the engine first asks the policy for a
proactive clone of the input; if cloning is refused it performs the single
call and returns its result unchanged, never consulting `retry`; otherwise
it calls the inner service with the originals, hands the clone and the
outcome to `Policy.retry`, and either returns the (possibly substituted)
result on `abort` or loops on `retry` with the policy-supplied
context/request.  `fuel` bounds the number of loop iterations so the
embedding is total; `none` means the bound was hit. -/
def retryServe {G Req Res Err Pσ Sσ : Type}
    (pol : Policy G Req Res Err Pσ) (svc : Service G Req Res Err Sσ) :
    Nat → Pσ → Sσ → G → Req → Option (Pσ × Sσ × Except Err Res)
  | 0, _, _, _, _ => none
  | fuel + 1, p, s, ctx, req =>
    match pol.clone_input p ctx req with
    | none =>
      let sr := svc.serve s ctx req
      some (p, sr.1, sr.2)
    | some (cctx, creq) =>
      let sr := svc.serve s ctx req
      let pr := pol.retry p cctx creq sr.2
      match pr.2 with
      | .abort r => some (pr.1, sr.1, r)
      | .retry ctx2 req2 => retryServe pol svc fuel pr.1 sr.1 ctx2 req2

/-- Instrumentation wrapper: same behaviour as `svc`, additionally
recording the request value observed by each invocation. -/
def Service.recorded {G Req Res Err Sσ : Type} (svc : Service G Req Res Err Sσ) :
    Service G Req Res Err (Sσ × List Req) where
  serve := fun s ctx req =>
    let sr := svc.serve s.1 ctx req
    ((sr.1, s.2 ++ [req]), sr.2)

/-- The `RetryErrors` test policy: retry while the result is an error,
abort on success; cloning always succeeds. -/
def retryErrorsPolicy {G Req Res Err : Type} : Policy G Req Res Err Unit where
  retry := fun _ ctx req r =>
    ((), match r with
      | .error _ => .retry ctx req
      | .ok v => .abort (.ok v))
  clone_input := fun _ ctx req => some (ctx, req)

/-- The `Limit` test policy: its state is the number of retries still
allowed; on an error with budget left it decrements and retries, otherwise
it aborts with the result as produced. -/
def limitPolicy {G Req Res Err : Type} : Policy G Req Res Err Nat where
  retry := fun a ctx req r =>
    match r, a with
    | .error _, n + 1 => (n, .retry ctx req)
    | .error e, 0 => (0, .abort (.error e))
    | .ok v, n => (n, .abort (.ok v))
  clone_input := fun _ ctx req => some (ctx, req)

/-- The `CannotClone` test policy: `clone_input` always refuses; its
`retry` (unreachable in the source test) demands a retry, so that the
theorems show it is indeed never consulted. -/
def cannotClonePolicy {G Req Res Err : Type} : Policy G Req Res Err Unit where
  retry := fun _ ctx req _ => ((), .retry ctx req)
  clone_input := fun _ _ _ => none

/-- The `MutatingPolicy` test policy: rewrites the request to
`"retrying"` on every retry, and once its remaining budget is zero aborts
with a substituted terminal error `"out of retries"`. -/
def mutatingPolicy : Policy Unit String String String Nat where
  retry := fun rem ctx _ _ =>
    match rem with
    | 0 => (0, .abort (.error "out of retries"))
    | n + 1 => (n, .retry ctx "retrying")
  clone_input := fun _ ctx req => some (ctx, req)

/-- A service that fails on each of its first `n` calls (with an error
drawn from `e` at the current call index) and succeeds with `v` from then
on; its state is the number of calls made so far. -/
def failThenSucceed {G Req Res Err : Type} (n : Nat) (e : Nat → Err) (v : Res) :
    Service G Req Res Err Nat where
  serve := fun c _ _ => (c + 1, if c < n then .error (e c) else .ok v)

/-- A service that fails on every call, with an error drawn from `e` at
the current call index; its state is the number of calls made so far. -/
def alwaysFail {G Req Res Err : Type} (e : Nat → Err) : Service G Req Res Err Nat where
  serve := fun c _ _ => (c + 1, .error (e c))

/-- A service that succeeds with `v` on every call; its state is the
number of calls made so far. -/
def alwaysOk {G Req Res Err : Type} (v : Res) : Service G Req Res Err Nat where
  serve := fun c _ _ => (c + 1, .ok v)

/-! ### Connection driver: error classification
(`rama-http-backend/src/server/hyper_conn.rs`)

The errors the classification functions inspect are opaque Rust objects
probed by downcasting; we embed them as a closed datatype exposing exactly
the probes the source performs: `hyper::Error::is_canceled`/`is_closed`,
the error's `source()`, downcasts of that source to `h2::Error`
(`is_go_away`/`is_io`) and to `std::io::Error`, and downcasts of a boxed
error to `hyper::Error` and `std::io::Error`. -/

/-- Kinds of `std::io::Error` relevant to connection-error recognition;
`other` carries a tag so distinct unrecognized errors stay distinct. -/
inductive IOErrorKind : Type
  | connectionReset
  | brokenPipe
  | connectionAborted
  | notConnected
  | other (tag : Nat)
deriving DecidableEq, Repr

/-- Modelled from the spec: `rama_tcp::utils::is_connection_error`, whose
implementation file is not among the provided sources.  Per the spec it
recognizes ordinary OS-level disconnects: reset-by-peer, broken-pipe,
aborted, not-connected. -/
def is_connection_error (k : IOErrorKind) : Bool :=
  match k with
  | .connectionReset => true
  | .brokenPipe => true
  | .connectionAborted => true
  | .notConnected => true
  | .other _ => false

/-- An `h2::Error` as probed by the source: only its `is_go_away` and
`is_io` flags are inspected; a tag keeps distinct errors distinct. -/
structure H2Error : Type where
  goAway : Bool
  io : Bool
  tag : Nat
deriving DecidableEq, Repr

/-- The possible `source()` of a `hyper::Error`, as probed by downcasting
in `map_hyper_err_to_result`. -/
inductive HyperSource : Type
  | h2 (e : H2Error)
  | io (k : IOErrorKind)
  | other (tag : Nat)
deriving DecidableEq, Repr

/-- A `hyper::Error` as probed by the source: its `is_canceled` and
`is_closed` flags and its optional source error. -/
structure HyperError : Type where
  canceled : Bool
  closed : Bool
  source : Option HyperSource
deriving DecidableEq, Repr

/-- The error type of `HttpServeResult`: mirrors which original error
object `Err(err.into())` carries out of the classification functions. -/
inductive HttpServeError : Type
  | hyper (e : HyperError)
  | io (k : IOErrorKind)
  | boxed (tag : Nat)
deriving DecidableEq, Repr

/-- Embedding of `map_hyper_err_to_result`: benign hyper errors (canceled
or closed; source an h2 go-away or h2 I/O error; source an I/O error
recognized as a connection error) map to `Ok(())`, everything else is
returned as a failure carrying the error. -/
def map_hyper_err_to_result (err : HyperError) : Except HttpServeError Unit :=
  if err.canceled || err.closed then .ok ()
  else
    match err.source with
    | some (.h2 h2_err) =>
      if h2_err.goAway || h2_err.io then .ok () else .error (.hyper err)
    | some (.io io_err) =>
      if is_connection_error io_err then .ok () else .error (.hyper err)
    | some (.other _) => .error (.hyper err)
    | none => .error (.hyper err)

/-- Embedding of `map_hyper_result`. -/
def map_hyper_result (result : Except HyperError Unit) : Except HttpServeError Unit :=
  match result with
  | .ok _ => .ok ()
  | .error err => map_hyper_err_to_result err

/-- A boxed `dyn Error` as probed by `map_boxed_hyper_result`: the two
downcast attempts of the source are to `hyper::Error` and then to
`std::io::Error`; anything else stays opaque. -/
inductive BoxedError : Type
  | hyper (e : HyperError)
  | io (k : IOErrorKind)
  | other (tag : Nat)
deriving DecidableEq, Repr

/-- Embedding of `map_boxed_hyper_result`: `Ok` maps to `Ok`; an error
downcasting to `hyper::Error` goes through `map_hyper_err_to_result`; one
downcasting to `std::io::Error` is `Ok(())` when recognized as a
connection error and a failure carrying it otherwise; any other error is a
failure carrying it. -/
def map_boxed_hyper_result (result : Except BoxedError Unit) : Except HttpServeError Unit :=
  match result with
  | .ok _ => .ok ()
  | .error (.hyper err) => map_hyper_err_to_result err
  | .error (.io io_err) =>
    if is_connection_error io_err then .ok () else .error (.io io_err)
  | .error (.other tag) => .error (.boxed tag)

/-! ### Connection driver: cancellation race
(`Sealed::hyper_serve_connection` in `hyper_conn.rs`)

The driver pins the hyper connection future, and, when the context carries
a guard, races it against the guard's cancellation future; if cancellation
wins it calls `graceful_shutdown()` on the connection once and then awaits
the same connection future to completion, classifying whatever terminal
result it produces.  We embed the two futures by their ready-times under a
step-indexed scheduler: the connection future completes naturally at poll
round `natCompleteAt`; if `graceful_shutdown` is invoked at round `t` it
instead completes at round `gsCompleteAt t` with result `gsResult t`. -/

/-- An abstract hyper connection future, described by when it becomes
ready and with which `hyper::Result<()>`, both for the natural run and for
a run on which `graceful_shutdown` was invoked at a given round. -/
structure ConnFuture : Type where
  natCompleteAt : Nat
  natResult : Except HyperError Unit
  gsCompleteAt : Nat → Nat
  gsResult : Nat → Except HyperError Unit

/-- Driver execution state: still racing the connection future against
the cancellation future at round `t`, or draining the connection future
after `graceful_shutdown` was invoked at round `sAt` (with `calls` its
invocation count, incremented exactly at the transition). -/
inductive DriveState : Type
  | racing (t : Nat)
  | draining (t : Nat) (sAt : Nat) (calls : Nat)
deriving DecidableEq, Repr

/-- One scheduler round of `hyper_serve_connection` on connection `c` with
an optional guard firing at round `fireAt`: while racing, a completed
connection future returns its classified result immediately (shutdown
never invoked); otherwise a fired guard triggers `graceful_shutdown`
exactly once and the driver moves to draining; while draining, the driver
only awaits the connection future's post-shutdown completion and then
classifies it.  The returned `Sum` is either the next state or the
terminal `(classification, shutdown-invocation count)`. -/
def driveStep (c : ConnFuture) (guard : Option Nat) :
    DriveState → Sum DriveState (Except HttpServeError Unit × Nat)
  | .racing t =>
    if c.natCompleteAt ≤ t then .inr (map_hyper_result c.natResult, 0)
    else
      match guard with
      | some fireAt =>
        if fireAt ≤ t then .inl (.draining t t 1) else .inl (.racing (t + 1))
      | none => .inl (.racing (t + 1))
  | .draining t sAt calls =>
    if c.gsCompleteAt sAt ≤ t then .inr (map_hyper_result (c.gsResult sAt), calls)
    else .inl (.draining (t + 1) sAt calls)

/-- Run the driver for at most `fuel` scheduler rounds from state `st`. -/
def driveRun (c : ConnFuture) (guard : Option Nat) :
    Nat → DriveState → Option (Except HttpServeError Unit × Nat)
  | 0, _ => none
  | fuel + 1, st =>
    match driveStep c guard st with
    | .inl st2 => driveRun c guard fuel st2
    | .inr out => some out

/-- Embedding of `hyper_serve_connection`'s serving loop: start racing at
round `0`. -/
def hyperServeConnection (c : ConnFuture) (guard : Option Nat) (fuel : Nat) :
    Option (Except HttpServeError Unit × Nat) :=
  driveRun c guard fuel (.racing 0)

/-! ### Credential validation (`rama-core/src/net/user/auth.rs`)

The `Extensions` type-indexed bag (spec sections 3 and 4.1; its
implementation file is not among the provided sources) is instantiated at
the two fact types the validators produce: `UserId` and `UsernameLabels`.
Insertion overwrites the prior value of the same type; `extend` merges
another bag in, overwriting on collisions. -/

/-- Modelled from the spec: the `Extensions` bag, restricted to the two
fact types used by the credential validators — a `UserId` (username) and
a `UsernameLabels` list. -/
structure Extensions : Type where
  userId : Option String
  usernameLabels : Option (List String)
deriving DecidableEq, Repr

/-- Modelled from the spec: `Extensions::new`, the empty bag. -/
def Extensions.new : Extensions := ⟨none, none⟩

/-- Modelled from the spec: insert a `UserId` fact (overwrites). -/
def Extensions.insertUserId (ext : Extensions) (u : String) : Extensions :=
  { ext with userId := some u }

/-- Modelled from the spec: insert a `UsernameLabels` fact (overwrites). -/
def Extensions.insertLabels (ext : Extensions) (ls : List String) : Extensions :=
  { ext with usernameLabels := some ls }

/-- Modelled from the spec: `Extensions::extend`, a move-merge that
overwrites on type collisions (facts present in `other` win). -/
def Extensions.extend (ext other : Extensions) : Extensions :=
  { userId := other.userId <|> ext.userId
    usernameLabels := other.usernameLabels <|> ext.usernameLabels }

/-- A `Basic` credential pair. -/
structure Basic : Type where
  username : String
  password : String
deriving DecidableEq, Repr

/-- A synchronous validator over credential type `C`
(`AuthoritySync::authorized(&self, ext: &mut Extensions, credentials: &C)
-> bool`): it may write facts into the bag and reports success. -/
def Validator (C : Type) : Type := Extensions → C → Extensions × Bool

/-- Embedding of `AuthoritySync for [T; N] / Vec<T>`:
`self.iter().any(|t| t.authorized(ext, credentials))` — the members are
consulted in order, each on the same mutable bag, stopping at the first
success. -/
def anyAuthority {C : Type} (vs : List (Validator C)) : Validator C :=
  fun ext c =>
    match vs with
    | [] => (ext, false)
    | v :: rest =>
      let eb := v ext c
      if eb.2 then (eb.1, true) else anyAuthority rest eb.1 c

/-- Embedding of the blanket `impl Authority for A: AuthoritySync`: start
from an empty bag, run the synchronous validator, and return the bag only
on success. -/
def authorityAuthorized {C : Type} (v : Validator C) (c : C) : Option Extensions :=
  let eb := v Extensions.new c
  if eb.2 then some eb.1 else none

/-- Embedding of `AuthoritySync<Basic, ()> for Basic`: exact comparison of
the whole credential pair; on match, insert the canonical username as the
`UserId` fact. -/
def basicAuthority (auth : Basic) : Validator Basic :=
  fun ext creds =>
    if auth = creds then (ext.insertUserId auth.username, true) else (ext, false)

/-- Modelled from the spec: `parse_username` with a pluggable label
parser, whose implementation file is not among the provided sources.  The
parser's overall behaviour is abstracted as
`parse : String → Option (String × List String)`, decomposing a structured
username into its base plus an ordered list of labels (`none` = parse
failure).  `parse_username` writes a `UsernameLabels` fact into the given
bag exactly when the label list is non-empty, and returns the base. -/
def parse_username (parse : String → Option (String × List String))
    (ext : Extensions) (username : String) : Option (Extensions × String) :=
  match parse username with
  | none => none
  | some (base, labels) =>
    some (if labels = [] then ext else ext.insertLabels labels, base)

/-- Embedding of `AuthoritySync<Basic, T> for Basic` (the label-parsing
validator): reject on password mismatch; parse the presented username into
a fresh bag; on parse failure fall back to exact whole-credential
comparison (inserting the full presented username as `UserId` on match);
on parse success reject unless the parsed base equals the canonical
username, and otherwise merge the parser's facts and insert the base as
`UserId`. -/
def basicLabelAuthority (parse : String → Option (String × List String))
    (auth : Basic) : Validator Basic :=
  fun ext creds =>
    if creds.password ≠ auth.password then (ext, false)
    else
      match parse_username parse Extensions.new creds.username with
      | none =>
        if auth = creds then (ext.insertUserId creds.username, true) else (ext, false)
      | some (parserExt, base) =>
        if base ≠ auth.username then (ext, false)
        else ((ext.extend parserExt).insertUserId base, true)

/-- Split a string into its `-`-separated segments. -/
def splitOnDash (s : String) : List String :=
  (s.data.foldr
    (fun c acc =>
      match acc with
      | [] => [[c]]
      | cur :: rest => if c = '-' then [] :: cur :: rest else (c :: cur) :: rest)
    [[]]).map (fun l => ⟨l⟩)

/-- The opaque label parsing used in the source tests
(`UsernameOpaqueLabelParser` semantics, modelled from the spec): split the
username on `-`, the first segment is the base and the remaining segments
are the labels; it never fails. -/
def opaqueLabelParse (username : String) : Option (String × List String) :=
  match splitOnDash username with
  | [] => none
  | base :: labels => some (base, labels)

/-! ### Byte-counting stream wrapper (`src/transport/bytes/tracker.rs`)

The wrapper holds two `Arc<AtomicUsize>` counters; a handle Arc-clones the
same two cells.  We embed the shared heap of counter cells explicitly: a
cell is an index into a list of values, `new` allocates two fresh cells
initialized to `0`, and the wrapper/handle store cell indices, so that two
owners of the same index observe the same mutations. -/

/-- The heap of shared counter cells: cell id to current value. -/
abbrev CounterHeap : Type := List Nat

/-- Value of cell `id` (fresh ids read `0`). -/
def CounterHeap.get (h : CounterHeap) (id : Nat) : Nat := h.getD id 0

/-- Atomic `fetch_add` of `n` on cell `id`. -/
def CounterHeap.add (h : CounterHeap) (id n : Nat) : CounterHeap :=
  h.set id (h.getD id 0 + n)

/-- The `BytesRWTracker` wrapper: two shared counter cells plus the
wrapped stream. -/
structure BytesRWTracker (S : Type) : Type where
  readCell : Nat
  writtenCell : Nat
  stream : S

/-- The read-only `BytesRWTrackerHandle`: Arc-clones of the same two
cells. -/
structure BytesRWTrackerHandle : Type where
  readCell : Nat
  writtenCell : Nat
deriving DecidableEq, Repr

/-- Embedding of `BytesRWTracker::new`: allocate two fresh cells, both
starting at `0`. -/
def BytesRWTracker.new {S : Type} (h : CounterHeap) (stream : S) :
    CounterHeap × BytesRWTracker S :=
  (h ++ [0, 0], ⟨h.length, h.length + 1, stream⟩)

/-- Embedding of `BytesRWTracker::read`: load the shared read counter. -/
def BytesRWTracker.read {S : Type} (t : BytesRWTracker S) (h : CounterHeap) : Nat :=
  h.get t.readCell

/-- Embedding of `BytesRWTracker::written`. -/
def BytesRWTracker.written {S : Type} (t : BytesRWTracker S) (h : CounterHeap) : Nat :=
  h.get t.writtenCell

/-- Embedding of `BytesRWTracker::handle`: clone the two shared cells. -/
def BytesRWTracker.handle {S : Type} (t : BytesRWTracker S) : BytesRWTrackerHandle :=
  ⟨t.readCell, t.writtenCell⟩

/-- Embedding of `BytesRWTracker::into_inner`: give up the stream; the
counter cells themselves are untouched. -/
def BytesRWTracker.into_inner {S : Type} (t : BytesRWTracker S) : S := t.stream

/-- Embedding of `BytesRWTrackerHandle::read`. -/
def BytesRWTrackerHandle.read (hd : BytesRWTrackerHandle) (h : CounterHeap) : Nat :=
  h.get hd.readCell

/-- Embedding of `BytesRWTrackerHandle::written`. -/
def BytesRWTrackerHandle.written (hd : BytesRWTrackerHandle) (h : CounterHeap) : Nat :=
  h.get hd.writtenCell

/-- Outcome of polling the wrapped stream: ready with `n` bytes
transferred, ready with an error, or pending. -/
inductive PollOutcome : Type
  | readyOk (n : Nat)
  | readyErr (k : IOErrorKind)
  | pending
deriving DecidableEq, Repr

/-- Embedding of the counter effect of `poll_read`: on `Ready(Ok(_))` the
number of bytes the inner stream filled is added to the shared read
counter; errors and pending leave it untouched. -/
def BytesRWTracker.poll_read {S : Type} (t : BytesRWTracker S) (h : CounterHeap)
    (res : PollOutcome) : CounterHeap :=
  match res with
  | .readyOk n => h.add t.readCell n
  | _ => h

/-- Embedding of the counter effect of `poll_write` (and likewise
`poll_write_vectored`): on `Ready(Ok(n))` the reported number of bytes
written is added to the shared written counter. -/
def BytesRWTracker.poll_write {S : Type} (t : BytesRWTracker S) (h : CounterHeap)
    (res : PollOutcome) : CounterHeap :=
  match res with
  | .readyOk n => h.add t.writtenCell n
  | _ => h

/-- One I/O operation performed through the wrapper. -/
inductive RWEvent : Type
  | read (res : PollOutcome)
  | write (res : PollOutcome)
deriving DecidableEq, Repr

/-- Run a sequence of I/O operations through the wrapper. -/
def BytesRWTracker.runEvents {S : Type} (t : BytesRWTracker S) :
    CounterHeap → List RWEvent → CounterHeap
  | h, [] => h
  | h, .read res :: rest => t.runEvents (t.poll_read h res) rest
  | h, .write res :: rest => t.runEvents (t.poll_write h res) rest

/-! ### Request context derivation (`src/http/request_context.rs`)

The derivation consumes the optional `Forwarded` fact of the context and
the request's URI, `Host` header and version.  The parsing performed by
the external address types (`Authority`/`Host` `try_from` on a header
value or URI host string) is embedded by carrying the parse results: a
header or URI host value is represented by what its parse attempts
yield. -/

/-- HTTP versions. -/
inductive Version : Type
  | http09
  | http10
  | http11
  | http2
  | http3
deriving DecidableEq, Repr

/-- Forwarded-header protocol versions; the source maps each constructor
to the equally-named `Version`. -/
inductive ForwardedVersion : Type
  | http09
  | http10
  | http11
  | http2
  | http3
deriving DecidableEq, Repr

/-- The source's match mapping `ForwardedVersion` to `Version`. -/
def forwardedVersionToVersion : ForwardedVersion → Version
  | .http09 => .http09
  | .http10 => .http10
  | .http11 => .http11
  | .http2 => .http2
  | .http3 => .http3

/-- The protocol of a request, as far as the derivation consumes it. -/
inductive Protocol : Type
  | http
  | https
deriving DecidableEq, Repr

/-- Modelled from the spec: `Protocol::default_port` of the external
`rama-net` protocol type — the standard port of the scheme. -/
def Protocol.default_port : Protocol → Nat
  | .http => 80
  | .https => 443

/-- Modelled from the spec: conversion of an optional URI scheme into a
`Protocol` (`uri.scheme().into()`); an absent scheme defaults to http. -/
def schemeToProtocol : Option Protocol → Protocol
  | some p => p
  | none => .http

/-- A network authority: a (parsed) host plus a port. -/
structure NetAuthority : Type where
  host : String
  port : Nat
deriving DecidableEq, Repr

/-- A `Forwarded` element's client authority: host plus optional port
(`into_parts`). -/
structure ForwardedAuthority : Type where
  host : String
  port : Option Nat
deriving DecidableEq, Repr

/-- The `Forwarded` fact as consumed by the derivation: the client
protocol, port, host and version, each optional. -/
structure Forwarded : Type where
  clientProto : Option Protocol
  clientPort : Option Nat
  clientHost : Option ForwardedAuthority
  clientVersion : Option ForwardedVersion
deriving DecidableEq, Repr

/-- A `Host` header value, embedded by the results of the two parse
attempts the source performs on it: `try_into` as a full authority, and
`Host::try_from` as a bare host. -/
structure HostHeaderValue : Type where
  asNetAuthority : Option NetAuthority
  asHost : Option String
deriving DecidableEq, Repr

/-- A raw URI host string, embedded by the result of `Host::try_from`. -/
structure RawUriHost : Type where
  asHost : Option String
deriving DecidableEq, Repr

/-- The parts of a URI the derivation consumes. -/
structure Uri : Type where
  scheme : Option Protocol
  host : Option RawUriHost
  port : Option Nat
deriving DecidableEq, Repr

/-- The parts of a request the derivation consumes. -/
structure HttpRequest : Type where
  uri : Uri
  version : Version
  hostHeader : Option HostHeaderValue
deriving DecidableEq, Repr

/-- The derived `RequestContext`. -/
structure RequestContext : Type where
  http_version : Version
  protocol : Protocol
  authority : Option NetAuthority
deriving DecidableEq, Repr

/-- The derivation's local `protocol`: the Forwarded client protocol,
else the URI scheme. -/
def requestProtocol (forwarded : Option Forwarded) (req : HttpRequest) : Protocol :=
  (forwarded.bind (fun f => f.clientProto)).getD (schemeToProtocol req.uri.scheme)

/-- The derivation's local `default_port`: the Forwarded client port, else
the URI port, else the default port of the derived protocol. -/
def requestDefaultPort (forwarded : Option Forwarded) (req : HttpRequest) : Nat :=
  ((forwarded.bind (fun f => f.clientPort)).orElse
    (fun _ => req.uri.port)).getD (requestProtocol forwarded req).default_port

/-- Embedding of `From<(&Context<State>, &Request<Body>)> for
RequestContext`: the protocol is the Forwarded client protocol, else the
URI scheme; the authority is the Forwarded client host, else the parsed
`Host` header, else the parsed URI host, each completed with the local
`default_port` when it carries none; the version is the Forwarded client
version, else the request's. -/
def requestContextFrom (forwarded : Option Forwarded) (req : HttpRequest) :
    RequestContext :=
  let protocol : Protocol := requestProtocol forwarded req
  let default_port : Nat := requestDefaultPort forwarded req
  let authority : Option NetAuthority :=
    (((forwarded.bind (fun f => f.clientHost)).map
        (fun fauth => ⟨fauth.host, fauth.port.getD default_port⟩)).orElse
      (fun _ => req.hostHeader.bind (fun hv =>
        hv.asNetAuthority.orElse
          (fun _ => hv.asHost.map (fun h => ⟨h, default_port⟩))))).orElse
      (fun _ => req.uri.host.bind (fun rh =>
        rh.asHost.map (fun h => ⟨h, default_port⟩)))
  let http_version : Version :=
    ((forwarded.bind (fun f => f.clientVersion)).map
      forwardedVersionToVersion).getD req.version
  ⟨http_version, protocol, authority⟩

/-! ### Claim-transcription definitions

These definitions follow the wording of the specification claims (not the
source); the theorems below compare them with the source embeddings. -/

/-- Transcription of the claimed benign classes for a completed
connection's hyper error: a cancellation/closed signal, an h2 go-away or
h2 I/O error as source, or a source I/O error recognized as an ordinary
connection error. -/
def benignHyperError (err : HyperError) : Bool :=
  err.canceled || err.closed ||
    (match err.source with
     | some (.h2 h) => h.goAway || h.io
     | some (.io k) => is_connection_error k
     | some (.other _) => false
     | none => false)

/-- Transcription of the claimed benign classes for a boxed connection
error. -/
def benignBoxedError : BoxedError → Bool
  | .hyper e => benignHyperError e
  | .io k => is_connection_error k
  | .other _ => false

/-- The failure value `Err(err.into())` carries for each boxed error, in
`map_boxed_hyper_result`'s non-benign branches. -/
def boxedCarried : BoxedError → HttpServeError
  | .hyper e => .hyper e
  | .io k => .io k
  | .other t => .boxed t

/-! ### Theorems -/

/-- C1: the Driver's classification of a completed connection maps benign
terminations (cancellation/closed signals, h2 go-away or h2 I/O errors,
I/O errors recognized as ordinary connection errors) to `Ok(())`, and
every other error to a failure carrying that error — both for hyper
errors and for boxed errors. -/
theorem driver_benign_classification :
    (∀ err : HyperError,
      map_hyper_err_to_result err =
        if benignHyperError err then Except.ok () else Except.error (.hyper err))
    ∧ ∀ result : Except BoxedError Unit,
        map_boxed_hyper_result result =
          match result with
          | .ok _ => Except.ok ()
          | .error e =>
            if benignBoxedError e then Except.ok () else Except.error (boxedCarried e) := by
  have hh : ∀ err : HyperError,
      map_hyper_err_to_result err =
        if benignHyperError err then Except.ok () else Except.error (.hyper err) := by
    intro err
    rcases err with ⟨c, cl, src⟩
    by_cases h : (c || cl) = true
    · simp [map_hyper_err_to_result, benignHyperError, h]
    · rcases src with _ | (h2e | k | t)
      · simp [map_hyper_err_to_result, benignHyperError, h]
      · by_cases hg : (h2e.goAway || h2e.io) = true <;>
          simp [map_hyper_err_to_result, benignHyperError, h, hg]
      · by_cases hk : is_connection_error k <;>
          simp [map_hyper_err_to_result, benignHyperError, h, hk]
      · simp [map_hyper_err_to_result, benignHyperError, h]
  refine ⟨hh, ?_⟩
  intro result
  rcases result with e | u
  · rcases e with e | k | t
    · simpa [map_boxed_hyper_result, benignBoxedError, boxedCarried] using hh e
    · by_cases h : is_connection_error k
      · simp [map_boxed_hyper_result, benignBoxedError, h]
      · simp [map_boxed_hyper_result, benignBoxedError, boxedCarried, h]
    · simp [map_boxed_hyper_result, benignBoxedError, boxedCarried]
  · simp [map_boxed_hyper_result]

/-- C2: for every inner service and every policy whose `clone_input`
always refuses, the composed retry service performs exactly one inner call
(the final service state is the state after a single `serve`) and returns
that call's result unchanged; `Policy.retry` is never consulted — the
outcome is the same for every `retry` component, and the policy state is
returned untouched. -/
theorem retry_non_cloneable_single_attempt
    {G Req Res Err Pσ Sσ : Type}
    (pol : Policy G Req Res Err Pσ) (svc : Service G Req Res Err Sσ)
    (hnc : ∀ p ctx req, pol.clone_input p ctx req = none)
    (fuel : Nat) (p : Pσ) (s : Sσ) (ctx : G) (req : Req) :
    retryServe pol svc (fuel + 1) p s ctx req
      = some (p, (svc.serve s ctx req).1, (svc.serve s ctx req).2) := by
  simp [retryServe, hnc]

/-- Witness for C2: the `CannotClone` policy (whose `retry` would demand a
retry) with a failing inner service and with a succeeding one: a single
call each, result returned unchanged. -/
theorem retry_non_cloneable_single_attempt_witness :
    retryServe (@cannotClonePolicy Unit String String String)
        (alwaysFail fun _ => "failed") 5 () 0 () "hello"
      = some ((), 1, Except.error "failed")
    ∧ retryServe (@cannotClonePolicy Unit String String String)
        (alwaysOk "world") 5 () 0 () "hello"
      = some ((), 1, Except.ok "world") := by
  constructor
  · have h := retry_non_cloneable_single_attempt
      (@cannotClonePolicy Unit String String String)
      (alwaysFail fun _ => "failed") (fun _ _ _ => rfl) 4 () 0 () "hello"
    simpa [alwaysFail] using h
  · have h := retry_non_cloneable_single_attempt
      (@cannotClonePolicy Unit String String String)
      (alwaysOk "world") (fun _ _ _ => rfl) 4 () 0 () "hello"
    simpa [alwaysOk] using h

/-- Helper for C4: running the retry engine with the `RetryErrors` policy
against a service that fails on its first `n` calls, starting from call
count `c`. -/
theorem retryErrors_run {G Req Res Err : Type} (e : Nat → Err) (v : Res)
    (n : Nat) (ctx : G) (req : Req) :
    ∀ fuel c, c ≤ n → n - c < fuel →
      retryServe retryErrorsPolicy (failThenSucceed n e v) fuel () c ctx req
        = some ((), n + 1, Except.ok v)
  | 0, c, _, hf => absurd hf (by omega)
  | fuel + 1, c, hc, hf => by
    by_cases hcn : c < n
    · have step : retryServe retryErrorsPolicy (failThenSucceed n e v) (fuel + 1) () c ctx req
          = retryServe retryErrorsPolicy (failThenSucceed n e v) fuel () (c + 1) ctx req := by
        simp [retryServe, retryErrorsPolicy, failThenSucceed, hcn]
      rw [step]
      exact retryErrors_run e v n ctx req fuel (c + 1) (by omega) (by omega)
    · have hceq : c = n := by omega
      subst hceq
      simp [retryServe, retryErrorsPolicy, failThenSucceed]

/-- C4: with a service that errors on each of its first `n` calls then
succeeds, and the `RetryErrors` policy (retry while the result is an
error, cloning always succeeds), the composed service returns the success
value and the inner service is called exactly `n + 1` times. -/
theorem retry_until_success {G Req Res Err : Type} (e : Nat → Err) (v : Res)
    (n fuel : Nat) (ctx : G) (req : Req) (hf : n < fuel) :
    retryServe retryErrorsPolicy (failThenSucceed n e v) fuel () 0 ctx req
      = some ((), n + 1, Except.ok v) :=
  retryErrors_run e v n ctx req fuel 0 (Nat.zero_le n) (by omega)

/-- Witness for C4 at `n = 2`: two errors then success, three calls. -/
theorem retry_until_success_witness :
    retryServe retryErrorsPolicy
        (@failThenSucceed Unit String String Nat 2 (fun i => i) "world")
        3 () 0 () "hello"
      = some ((), 3, Except.ok "world") :=
  retry_until_success (fun i => i) "world" 2 3 () "hello" (by omega)

/-- Helper for C5: running the retry engine with the `Limit` policy
against a permanently failing service, from remaining budget `a` and call
count `c`. -/
theorem limit_run {G Req Res Err : Type} (e : Nat → Err) (ctx : G) (req : Req) :
    ∀ fuel a c, a < fuel →
      retryServe limitPolicy (alwaysFail e) fuel a c ctx req
        = some (0, c + a + 1, (Except.error (e (c + a)) : Except Err Res))
  | 0, a, _, hf => absurd hf (by omega)
  | fuel + 1, 0, c, _ => by
    simp [retryServe, limitPolicy, alwaysFail]
  | fuel + 1, a + 1, c, hf => by
    have step : @retryServe G Req Res Err Nat Nat limitPolicy (alwaysFail e) (fuel + 1) (a + 1) c ctx req
        = retryServe limitPolicy (alwaysFail e) fuel a (c + 1) ctx req := by
      simp [retryServe, limitPolicy, alwaysFail]
    rw [step, @limit_run G Req Res Err e ctx req fuel a (c + 1) (by omega)]
    have harith : c + 1 + a = c + (a + 1) := by omega
    rw [harith]

/-- C5: with the `Limit` policy granting at most `k` retries (a counter
decremented on each retry decision, aborting once exhausted or on
success) and a permanently failing inner service, the composed service
calls the inner service exactly `k + 1` times and returns the error of
the last attempt as final. -/
theorem retry_limit {G Req Res Err : Type} (e : Nat → Err) (k fuel : Nat)
    (ctx : G) (req : Req) (hf : k < fuel) :
    retryServe limitPolicy (alwaysFail e) fuel k 0 ctx req
      = some (0, k + 1, (Except.error (e k) : Except Err Res)) := by
  have h := @limit_run G Req Res Err e ctx req fuel k 0 hf
  simpa using h

/-- Witness for C5 at `k = 2`: three calls, the final error is the third
attempt's. -/
theorem retry_limit_witness :
    retryServe limitPolicy (@alwaysFail Unit String String Nat (fun i => i))
        4 2 0 () "hello"
      = some (0, 3, Except.error 2) :=
  retry_limit (fun i => i) 2 4 () "hello" (by omega)

/-- Helper for C6: any completed run of the retry engine over a recording
service first serves the initial request — its recorded trace extends the
incoming trace with the initial request followed by some suffix. -/
theorem recorded_run_extends {G Req Res Err Pσ Sσ : Type}
    (pol : Policy G Req Res Err Pσ) (svc : Service G Req Res Err Sσ) :
    ∀ fuel p s l ctx req p2 s2 l2 r2,
      retryServe pol svc.recorded fuel p (s, l) ctx req = some (p2, (s2, l2), r2) →
      ∃ rest, l2 = l ++ req :: rest
  | 0, p, s, l, ctx, req, p2, s2, l2, r2 => by
    intro h
    simp [retryServe] at h
  | fuel + 1, p, s, l, ctx, req, p2, s2, l2, r2 => by
    intro h
    simp only [retryServe, Service.recorded] at h
    split at h
    · simp only [Option.some.injEq, Prod.mk.injEq] at h
      exact ⟨[], by simpa using h.2.1.2.symm⟩
    · split at h
      · simp only [Option.some.injEq, Prod.mk.injEq] at h
        exact ⟨[], by simpa using h.2.1.2.symm⟩
      · rename_i ctx2 req2 hpr
        have hrec := recorded_run_extends pol svc fuel
          _ _ (l ++ [req]) ctx2 req2 p2 s2 l2 r2 h
        rcases hrec with ⟨rest2, hrest⟩
        exact ⟨req2 :: rest2, by simpa using hrest⟩

/-- C6: when the policy answers a first outcome with `Retry` carrying a
new request value, the engine's second inner invocation observes exactly
that new value (the recorded trace continues `initial :: new :: _`); and
when the policy answers `Abort` with a result it substituted for the one
actually produced, that substituted result is what the engine returns as
final. -/
theorem retry_mutation_and_substitution
    {G Req Res Err Pσ Sσ : Type}
    (pol : Policy G Req Res Err Pσ) (svc : Service G Req Res Err Sσ) :
    (∀ p s l ctx req cctx creq p1 ctx2 req2 fuel p2 s2 l2 r2,
      pol.clone_input p ctx req = some (cctx, creq) →
      pol.retry p cctx creq (svc.serve s ctx req).2 = (p1, .retry ctx2 req2) →
      retryServe pol svc.recorded (fuel + 1) p (s, l) ctx req = some (p2, (s2, l2), r2) →
      ∃ rest, l2 = l ++ req :: req2 :: rest)
    ∧
    (∀ p s ctx req cctx creq p1 rsub fuel,
      pol.clone_input p ctx req = some (cctx, creq) →
      pol.retry p cctx creq (svc.serve s ctx req).2 = (p1, .abort rsub) →
      retryServe pol svc (fuel + 1) p s ctx req
        = some (p1, (svc.serve s ctx req).1, rsub)) := by
  constructor
  · intro p s l ctx req cctx creq p1 ctx2 req2 fuel p2 s2 l2 r2 hclone hretry h
    simp only [retryServe, Service.recorded, hclone, hretry] at h
    have hrec := recorded_run_extends pol svc fuel p1 (svc.serve s ctx req).1
      (l ++ [req]) ctx2 req2 p2 s2 l2 r2 h
    rcases hrec with ⟨rest2, hrest⟩
    exact ⟨rest2, by simpa using hrest⟩
  · intro p s ctx req cctx creq p1 rsub fuel hclone hretry
    simp [retryServe, hclone, hretry]

/-- Witness for C6: the `MutatingPolicy` against an always-succeeding
recording service — the trace of a full run is
`"hello" :: "retrying" :: _`, and once the budget is exhausted the
substituted terminal error `"out of retries"` is returned although the
service succeeded. -/
theorem retry_mutation_and_substitution_witness :
    (∃ rest, (["hello", "retrying", "retrying"] : List String)
        = [] ++ "hello" :: "retrying" :: rest)
    ∧ retryServe mutatingPolicy (alwaysOk "world") 1 0 0 () "hello"
      = some (0, 1, Except.error "out of retries") := by
  constructor
  · exact (retry_mutation_and_substitution mutatingPolicy (alwaysOk "world")).1
      2 0 [] () "hello" () "hello" 1 () "retrying" 9 0 3
      ["hello", "retrying", "retrying"] (Except.error "out of retries") rfl rfl rfl
  · exact (retry_mutation_and_substitution mutatingPolicy (alwaysOk "world")).2
      0 0 () "hello" () "hello" 0 (Except.error "out of retries") 0 rfl rfl

/-- Helper for C3: once draining, the driver awaits the connection
future's post-shutdown completion and classifies its result, with the
shutdown-invocation count unchanged. -/
theorem driveRun_drain (c : ConnFuture) (guard : Option Nat) :
    ∀ fuel t sAt calls, c.gsCompleteAt sAt ≤ t + fuel →
      driveRun c guard (fuel + 1) (.draining t sAt calls)
        = some (map_hyper_result (c.gsResult sAt), calls)
  | 0, t, sAt, calls, h => by
    have hle : c.gsCompleteAt sAt ≤ t := by omega
    simp [driveRun, driveStep, hle]
  | fuel + 1, t, sAt, calls, h => by
    by_cases hle : c.gsCompleteAt sAt ≤ t
    · simp [driveRun, driveStep, hle]
    · have step : driveRun c guard (fuel + 1 + 1) (.draining t sAt calls)
          = driveRun c guard (fuel + 1) (.draining (t + 1) sAt calls) := by
        simp [driveRun, driveStep, hle]
      rw [step]
      exact driveRun_drain c guard fuel (t + 1) sAt calls (by omega)

/-- Helper for C3: when the guard fires at round `g` strictly before the
connection future's natural completion, the race ends with exactly one
`graceful_shutdown` invocation and the classification of the connection
future's post-shutdown terminal result. -/
theorem driveRun_race_cancel (c : ConnFuture) (g : Nat) (hg : g < c.natCompleteAt) :
    ∀ fuel t, t ≤ g → (g - t) + (c.gsCompleteAt g - g) + 2 ≤ fuel →
      driveRun c (some g) fuel (.racing t)
        = some (map_hyper_result (c.gsResult g), 1)
  | 0, t, _, hf => absurd hf (by omega)
  | fuel + 1, t, ht, hf => by
    by_cases htg : t < g
    · have h1 : ¬ c.natCompleteAt ≤ t := by omega
      have h2 : ¬ g ≤ t := by omega
      have step : driveRun c (some g) (fuel + 1) (.racing t)
          = driveRun c (some g) fuel (.racing (t + 1)) := by
        simp [driveRun, driveStep, h1, h2]
      rw [step]
      exact driveRun_race_cancel c g hg fuel (t + 1) (by omega) (by omega)
    · have hteq : t = g := by omega
      subst hteq
      have h1 : ¬ c.natCompleteAt ≤ t := by omega
      have step : driveRun c (some t) (fuel + 1) (.racing t)
          = driveRun c (some t) fuel (.draining t t 1) := by
        simp [driveRun, driveStep, h1]
      rw [step]
      obtain ⟨m, rfl⟩ : ∃ m, fuel = m + 1 := ⟨fuel - 1, by omega⟩
      exact driveRun_drain c (some t) m t t 1 (by omega)

/-- Helper for C3: when the connection future completes no later than any
guard firing, the race returns its classified natural result immediately,
with `graceful_shutdown` never invoked. -/
theorem driveRun_race_conn (c : ConnFuture) (guard : Option Nat)
    (hga : ∀ g, guard = some g → c.natCompleteAt ≤ g) :
    ∀ fuel t, c.natCompleteAt - t < fuel →
      driveRun c guard fuel (.racing t)
        = some (map_hyper_result c.natResult, 0)
  | 0, t, hf => absurd hf (by omega)
  | fuel + 1, t, hf => by
    by_cases hnat : c.natCompleteAt ≤ t
    · simp [driveRun, driveStep, hnat]
    · have step : driveRun c guard (fuel + 1) (.racing t)
          = driveRun c guard fuel (.racing (t + 1)) := by
        cases hgd : guard with
        | none => simp [driveRun, driveStep, hnat]
        | some g =>
          have h2 : ¬ g ≤ t := by
            have := hga g hgd
            omega
          simp [driveRun, driveStep, hnat, h2]
      rw [step]
      exact driveRun_race_conn c guard hga fuel (t + 1) (by omega)

/-- C3: with a guard present, if cancellation fires (at round `g`) before
the connection future completes, the driver invokes `graceful_shutdown`
exactly once and then awaits the same connection future to its actual
completion, returning the classification of that eventual terminal result;
if the connection future completes first, its classified result is
returned immediately and `graceful_shutdown` is never invoked. -/
theorem driver_cancellation_graceful :
    (∀ (c : ConnFuture) (g fuel : Nat), g < c.natCompleteAt →
      g + (c.gsCompleteAt g - g) + 2 ≤ fuel →
      hyperServeConnection c (some g) fuel
        = some (map_hyper_result (c.gsResult g), 1))
    ∧ ∀ (c : ConnFuture) (g fuel : Nat), c.natCompleteAt ≤ g →
      c.natCompleteAt < fuel →
      hyperServeConnection c (some g) fuel
        = some (map_hyper_result c.natResult, 0) := by
  constructor
  · intro c g fuel hg hf
    exact driveRun_race_cancel c g hg fuel 0 (Nat.zero_le g) (by omega)
  · intro c g fuel hg hf
    refine driveRun_race_conn c (some g) ?_ fuel 0 (by omega)
    intro g2 h2
    injection h2 with h3
    omega

/-- Witness for C3: a connection that would naturally complete at round 5
with an unrecognized error, cancelled at round 2, drains to a clean
post-shutdown completion with one shutdown invocation; the same driver
with the guard firing only at round 3 past a round-1 natural completion
classifies a reset-by-peer termination as success with no shutdown. -/
theorem driver_cancellation_graceful_witness :
    hyperServeConnection
        ⟨5, Except.error ⟨false, false, some (.other 7)⟩, fun t => t + 1, fun _ => Except.ok ()⟩
        (some 2) 10
      = some (Except.ok (), 1)
    ∧ hyperServeConnection
        ⟨1, Except.error ⟨false, false, some (.io .connectionReset)⟩, fun t => t, fun _ => Except.ok ()⟩
        (some 3) 4
      = some (Except.ok (), 0) := by
  constructor
  · exact driver_cancellation_graceful.1
      ⟨5, Except.error ⟨false, false, some (.other 7)⟩, fun t => t + 1, fun _ => Except.ok ()⟩
      2 10 (by decide) (by decide)
  · exact driver_cancellation_graceful.2
      ⟨1, Except.error ⟨false, false, some (.io .connectionReset)⟩, fun t => t, fun _ => Except.ok ()⟩
      3 4 (by decide) (by decide)

/-- Helper: a `basicAuthority` validator never touches the bag when it
fails. -/
theorem basicAuthority_clean (a : Basic) (e : Extensions) (cr : Basic)
    (hf : (basicAuthority a e cr).2 = false) : (basicAuthority a e cr).1 = e := by
  by_cases h : a = cr
  · simp [basicAuthority, h] at hf
  · simp [basicAuthority, h]

/-- C7 counterexample: the composite validator threads one shared bag
through all members, so a non-matching member that wrote facts before
failing leaks them into the successful result — the claim that the
returned Extensions are exactly those of the matching member is false. -/
theorem authority_or_composite_counterexample :
    ¬ (∀ (vs1 vs2 : List (Validator Unit)) (v : Validator Unit),
        (∀ v2 ∈ vs1, (v2 Extensions.new ()).2 = false) →
        (v Extensions.new ()).2 = true →
        authorityAuthorized (anyAuthority (vs1 ++ v :: vs2)) ()
          = some (v Extensions.new ()).1) := by
  intro hclaim
  have h := hclaim [fun e _ => (e.insertLabels ["evil"], false)] []
    (fun e _ => (e.insertUserId "john", true))
    (by
      intro v2 hm
      simp only [List.mem_singleton] at hm
      subst hm
      rfl)
    rfl
  exact absurd h (by decide)

/-- C7 (amended): the composite validator succeeds iff some member
succeeds, members are consulted in order with evaluation stopping at the
first match (members after it, `vs2`, are arbitrary and never consulted),
and — provided every member leaves the bag untouched when it fails, as all
validators in this repository do — the Extensions returned on success are
exactly those produced by the matching member; total failure yields no
Extensions at all. -/
theorem authority_or_composite {C : Type} (c : C) :
    (∀ (vs : List (Validator C)) (ext : Extensions),
      (∀ v ∈ vs, ∀ e, (v e c).2 = false → (v e c).1 = e) →
      ((anyAuthority vs ext c).2 = true ↔ ∃ v ∈ vs, (v ext c).2 = true))
    ∧
    (∀ (vs1 vs2 : List (Validator C)) (v : Validator C) (ext : Extensions),
      (∀ v2 ∈ vs1, (v2 ext c).2 = false ∧ (v2 ext c).1 = ext) →
      (v ext c).2 = true →
      anyAuthority (vs1 ++ v :: vs2) ext c = v ext c)
    ∧
    (∀ (vs1 vs2 : List (Validator C)) (v : Validator C),
      (∀ v2 ∈ vs1, (v2 Extensions.new c).2 = false ∧ (v2 Extensions.new c).1 = Extensions.new) →
      (v Extensions.new c).2 = true →
      authorityAuthorized (anyAuthority (vs1 ++ v :: vs2)) c
        = some (v Extensions.new c).1)
    ∧
    (∀ vs : List (Validator C),
      (anyAuthority vs Extensions.new c).2 = false →
      authorityAuthorized (anyAuthority vs) c = none) := by
  have hfirst : ∀ (vs1 vs2 : List (Validator C)) (v : Validator C) (ext : Extensions),
      (∀ v2 ∈ vs1, (v2 ext c).2 = false ∧ (v2 ext c).1 = ext) →
      (v ext c).2 = true →
      anyAuthority (vs1 ++ v :: vs2) ext c = v ext c := by
    intro vs1
    induction vs1 with
    | nil =>
      intro vs2 v ext _ hv
      simp only [List.nil_append, anyAuthority, hv, if_true]
      rw [← hv, Prod.mk.eta]
    | cons v2 rest ih =>
      intro vs2 v ext hclean hv
      have hc2 := hclean v2 (by simp)
      simp only [List.cons_append, anyAuthority, hc2.1, Bool.false_eq_true, if_false, hc2.2]
      exact ih vs2 v ext (fun v3 hm => hclean v3 (by simp [hm])) hv
  have hiff : ∀ (vs : List (Validator C)) (ext : Extensions),
      (∀ v ∈ vs, ∀ e, (v e c).2 = false → (v e c).1 = e) →
      ((anyAuthority vs ext c).2 = true ↔ ∃ v ∈ vs, (v ext c).2 = true) := by
    intro vs
    induction vs with
    | nil =>
      intro ext _
      simp [anyAuthority]
    | cons v rest ih =>
      intro ext hclean
      by_cases hv : (v ext c).2 = true
      · simp only [anyAuthority, hv, if_true]
        simp only [List.exists_mem_cons_iff]
        exact ⟨fun _ => Or.inl hv, fun _ => trivial⟩
      · have hv2 : (v ext c).2 = false := by simpa using hv
        have hfix : (v ext c).1 = ext := hclean v (by simp) ext hv2
        simp only [anyAuthority, hv2, Bool.false_eq_true, if_false, hfix]
        rw [ih ext (fun v3 hm => hclean v3 (by simp [hm]))]
        simp only [List.exists_mem_cons_iff, hv2]
        constructor
        · exact fun h => Or.inr h
        · rintro (h | h)
          · exact absurd h (by simp)
          · exact h
  refine ⟨hiff, hfirst, ?_, ?_⟩
  · intro vs1 vs2 v hclean hv
    have h := hfirst vs1 vs2 v Extensions.new hclean hv
    simp [authorityAuthorized, h, hv]
  · intro vs hfail
    simp [authorityAuthorized, hfail]

/-- Witness for C7: the source test's candidate list — OR semantics and
the exact Extensions of the matching member, on `("john","secret")`. -/
theorem authority_or_composite_witness :
    ((anyAuthority [basicAuthority ⟨"foo", "bar"⟩, basicAuthority ⟨"john", "secret"⟩]
        Extensions.new ⟨"john", "secret"⟩).2 = true
      ↔ ∃ v ∈ [basicAuthority ⟨"foo", "bar"⟩, basicAuthority ⟨"john", "secret"⟩],
          (v Extensions.new (⟨"john", "secret"⟩ : Basic)).2 = true)
    ∧ authorityAuthorized
        (anyAuthority [basicAuthority ⟨"foo", "bar"⟩, basicAuthority ⟨"john", "secret"⟩])
        (⟨"john", "secret"⟩ : Basic)
      = some ((basicAuthority ⟨"john", "secret"⟩) Extensions.new ⟨"john", "secret"⟩).1 := by
  have hclean : ∀ v ∈ [basicAuthority (⟨"foo", "bar"⟩ : Basic),
      basicAuthority ⟨"john", "secret"⟩], ∀ e : Extensions,
      (v e (⟨"john", "secret"⟩ : Basic)).2 = false →
      (v e (⟨"john", "secret"⟩ : Basic)).1 = e := by
    intro v hm e hf
    rcases List.mem_cons.mp hm with h | hm2
    · subst h
      exact basicAuthority_clean _ _ _ hf
    · rcases List.mem_cons.mp hm2 with h | hm3
      · subst h
        exact basicAuthority_clean _ _ _ hf
      · simp at hm3
  constructor
  · exact (authority_or_composite ⟨"john", "secret"⟩).1
      [basicAuthority ⟨"foo", "bar"⟩, basicAuthority ⟨"john", "secret"⟩]
      Extensions.new hclean
  · exact (authority_or_composite ⟨"john", "secret"⟩).2.2.1
      [basicAuthority ⟨"foo", "bar"⟩] [] (basicAuthority ⟨"john", "secret"⟩)
      (by
        intro v2 hm
        simp only [List.mem_singleton] at hm
        subst hm
        exact ⟨by decide, by decide⟩)
      (by decide)

/-- C8 counterexample: the claim says that when the parsed base does not
match the canonical username the validator falls back to exact
whole-username comparison before rejecting; but the source only falls back
on parse *failure* — with canonical credentials `("john-green","secret")`
presented verbatim, the parse succeeds with base `"john"`, the base
mismatches, and the validator rejects even though the exact whole-username
comparison would have matched. -/
theorem basic_label_fallback_counterexample :
    ¬ (∀ (parse : String → Option (String × List String)) (auth creds : Basic)
        (ext : Extensions),
        creds.password = auth.password →
        (∀ base labels, parse creds.username = some (base, labels) →
          base ≠ auth.username) →
        ((basicLabelAuthority parse auth ext creds).2 = true ↔ auth = creds)) := by
  intro hclaim
  have h := (hclaim opaqueLabelParse ⟨"john-green", "secret"⟩ ⟨"john-green", "secret"⟩
      Extensions.new rfl
      (by
        intro base labels heq
        have h0 : opaqueLabelParse "john-green" = some ("john", ["green"]) := by decide
        rw [h0] at heq
        simp only [Option.some.injEq, Prod.mk.injEq] at heq
        rw [← heq.1]
        decide)).mpr rfl
  exact absurd h (by decide)

/-- C8 (amended): with matching passwords, (i) when the structured
username parses into a base plus labels and the base equals the canonical
username, validation succeeds yielding the canonical identity and the
parsed labels (a labels fact exactly when some labels were parsed);
(ii) when parsing fails the validator falls back to exact
whole-credential comparison before rejecting; (iii) when parsing succeeds
but the base does not match the canonical username, the validator rejects
outright, with no fallback. -/
theorem basic_label_validation
    (parse : String → Option (String × List String)) (auth creds : Basic)
    (ext : Extensions) (hpw : creds.password = auth.password) :
    (∀ base labels, parse creds.username = some (base, labels) →
      base = auth.username →
      (basicLabelAuthority parse auth ext creds).2 = true
        ∧ (basicLabelAuthority parse auth ext creds).1.userId = some auth.username
        ∧ (basicLabelAuthority parse auth ext creds).1.usernameLabels
            = (if labels = [] then ext.usernameLabels else some labels))
    ∧ (parse creds.username = none →
      basicLabelAuthority parse auth ext creds
        = if auth = creds then (ext.insertUserId creds.username, true) else (ext, false))
    ∧ (∀ base labels, parse creds.username = some (base, labels) →
      base ≠ auth.username →
      basicLabelAuthority parse auth ext creds = (ext, false)) := by
  refine ⟨?_, ?_, ?_⟩
  · intro base labels hparse hbase
    by_cases hl : labels = []
    · subst hl
      simp [basicLabelAuthority, parse_username, hpw, hparse, hbase,
        Extensions.extend, Extensions.insertUserId, Extensions.new]
    · simp [basicLabelAuthority, parse_username, hpw, hparse, hbase, hl,
        Extensions.extend, Extensions.insertLabels, Extensions.insertUserId,
        Extensions.new]
  · intro hparse
    simp [basicLabelAuthority, parse_username, hpw, hparse]
  · intro base labels hparse hbase
    simp [basicLabelAuthority, parse_username, hpw, hparse, hbase]

/-- Witness for C8: the source test inputs — `("john-green-red","secret")`
against canonical `("john","secret")` yields identity `"john"` and labels
`["green","red"]`; a failing parse falls back to exact comparison for
`("john","secret")`; `("mallory","secret")` is rejected. -/
theorem basic_label_validation_witness :
    ((basicLabelAuthority opaqueLabelParse ⟨"john", "secret"⟩ Extensions.new
        ⟨"john-green-red", "secret"⟩).2 = true
      ∧ (basicLabelAuthority opaqueLabelParse ⟨"john", "secret"⟩ Extensions.new
        ⟨"john-green-red", "secret"⟩).1.userId = some "john"
      ∧ (basicLabelAuthority opaqueLabelParse ⟨"john", "secret"⟩ Extensions.new
        ⟨"john-green-red", "secret"⟩).1.usernameLabels = some ["green", "red"])
    ∧ basicLabelAuthority (fun _ => none) ⟨"john", "secret"⟩ Extensions.new
        ⟨"john", "secret"⟩
      = (Extensions.new.insertUserId "john", true)
    ∧ basicLabelAuthority opaqueLabelParse ⟨"john", "secret"⟩ Extensions.new
        ⟨"mallory", "secret"⟩
      = (Extensions.new, false) := by
  refine ⟨?_, ?_, ?_⟩
  · have h := (basic_label_validation opaqueLabelParse ⟨"john", "secret"⟩
      ⟨"john-green-red", "secret"⟩ Extensions.new rfl).1 "john" ["green", "red"]
      (by decide) rfl
    simpa using h
  · have h := (basic_label_validation (fun _ => none) ⟨"john", "secret"⟩
      ⟨"john", "secret"⟩ Extensions.new rfl).2.1 rfl
    simpa using h
  · exact (basic_label_validation opaqueLabelParse ⟨"john", "secret"⟩
      ⟨"mallory", "secret"⟩ Extensions.new rfl).2.2 "mallory" [] (by decide) (by decide)

/-- Helper: `fetch_add` on a live cell adds to it. -/
theorem counterHeap_get_add_self (h : CounterHeap) (id n : Nat) (hid : id < h.length) :
    (h.add id n).get id = h.get id + n := by
  simp [CounterHeap.add, CounterHeap.get, List.getD_eq_getElem?_getD,
    List.getElem?_set_eq_of_lt _ hid]

/-- Helper: `fetch_add` on one cell leaves every other cell unchanged. -/
theorem counterHeap_get_add_ne (h : CounterHeap) (id jd n : Nat) (hne : id ≠ jd) :
    (h.add id n).get jd = h.get jd := by
  simp [CounterHeap.add, CounterHeap.get, List.getD_eq_getElem?_getD,
    List.getElem?_set_ne hne]

/-- Helper: a poll through the wrapper never changes the number of
counter cells. -/
theorem poll_length {S : Type} (t : BytesRWTracker S) (h : CounterHeap)
    (res : PollOutcome) :
    (t.poll_read h res).length = h.length ∧ (t.poll_write h res).length = h.length := by
  cases res <;>
    simp [BytesRWTracker.poll_read, BytesRWTracker.poll_write, CounterHeap.add]

/-- Helper: running any event sequence never changes the number of
counter cells. -/
theorem runEvents_length {S : Type} (t : BytesRWTracker S) :
    ∀ (evs : List RWEvent) (h : CounterHeap), (t.runEvents h evs).length = h.length
  | [], _ => rfl
  | .read res :: rest, h => by
    rw [BytesRWTracker.runEvents, runEvents_length t rest, (poll_length t h res).1]
  | .write res :: rest, h => by
    rw [BytesRWTracker.runEvents, runEvents_length t rest, (poll_length t h res).2]

/-- C9: a tracker freshly created by `new` starts both shared counters at
0; a handle observes the same shared cells as the wrapper at every point
(after any event sequence), and the handle's reads do not involve the
wrapper at all, so the counts stay observable and final once the wrapper
has been consumed via `into_inner`; each successful read/write of `n`
bytes adds exactly `n` to its counter and leaves the other untouched, and
failed or pending polls change neither. -/
theorem tracker_shared_counters {S : Type} (h0 : CounterHeap) (stream : S)
    (h1 : CounterHeap) (t : BytesRWTracker S)
    (hnew : BytesRWTracker.new h0 stream = (h1, t)) :
    (t.read h1 = 0 ∧ t.written h1 = 0)
    ∧ (∀ evs : List RWEvent,
        (t.handle).read (t.runEvents h1 evs) = t.read (t.runEvents h1 evs)
        ∧ (t.handle).written (t.runEvents h1 evs) = t.written (t.runEvents h1 evs))
    ∧ t.into_inner = stream
    ∧ (∀ (evs : List RWEvent) (n : Nat),
        t.read (t.poll_read (t.runEvents h1 evs) (.readyOk n))
          = t.read (t.runEvents h1 evs) + n
        ∧ t.written (t.poll_read (t.runEvents h1 evs) (.readyOk n))
          = t.written (t.runEvents h1 evs)
        ∧ t.written (t.poll_write (t.runEvents h1 evs) (.readyOk n))
          = t.written (t.runEvents h1 evs) + n
        ∧ t.read (t.poll_write (t.runEvents h1 evs) (.readyOk n))
          = t.read (t.runEvents h1 evs))
    ∧ (∀ (hh : CounterHeap) (k : IOErrorKind),
        t.poll_read hh (.readyErr k) = hh ∧ t.poll_write hh (.readyErr k) = hh
        ∧ t.poll_read hh .pending = hh ∧ t.poll_write hh .pending = hh) := by
  have hh1 : h0 ++ [0, 0] = h1 := congrArg Prod.fst hnew
  have hht : (⟨h0.length, h0.length + 1, stream⟩ : BytesRWTracker S) = t :=
    congrArg Prod.snd hnew
  subst hh1 hht
  refine ⟨⟨?_, ?_⟩, fun evs => ⟨rfl, rfl⟩, rfl, ?_, fun hh k => ⟨rfl, rfl, rfl, rfl⟩⟩
  · simp [BytesRWTracker.read, CounterHeap.get, List.getD_eq_getElem?_getD,
      List.getElem?_append_right (Nat.le_refl h0.length)]
  · simp [BytesRWTracker.written, CounterHeap.get, List.getD_eq_getElem?_getD,
      List.getElem?_append_right (Nat.le_succ_of_le (Nat.le_refl h0.length))]
  · intro evs n
    have hlen : (BytesRWTracker.runEvents ⟨h0.length, h0.length + 1, stream⟩
        (h0 ++ [0, 0]) evs).length = h0.length + 2 := by
      rw [runEvents_length]
      simp
    refine ⟨?_, ?_, ?_, ?_⟩
    · exact counterHeap_get_add_self _ _ n (by rw [hlen]; dsimp only; omega)
    · exact counterHeap_get_add_ne _ _ _ n (by dsimp only; omega)
    · exact counterHeap_get_add_self _ _ n (by rw [hlen]; dsimp only; omega)
    · exact counterHeap_get_add_ne _ _ _ n (by dsimp only; omega)

/-- Witness for C9: a fresh tracker on the empty heap, counts starting at
0 and a successful 4-byte read on top of a 3-byte one adding exactly 4. -/
theorem tracker_shared_counters_witness :
    ((⟨0, 1, ()⟩ : BytesRWTracker Unit).read [0, 0] = 0
      ∧ (⟨0, 1, ()⟩ : BytesRWTracker Unit).written [0, 0] = 0)
    ∧ (⟨0, 1, ()⟩ : BytesRWTracker Unit).read
        ((⟨0, 1, ()⟩ : BytesRWTracker Unit).poll_read
          ((⟨0, 1, ()⟩ : BytesRWTracker Unit).runEvents [0, 0] [.read (.readyOk 3)])
          (.readyOk 4))
      = (⟨0, 1, ()⟩ : BytesRWTracker Unit).read
          ((⟨0, 1, ()⟩ : BytesRWTracker Unit).runEvents [0, 0] [.read (.readyOk 3)]) + 4 := by
  have h := tracker_shared_counters [] () [0, 0] ⟨0, 1, ()⟩ rfl
  exact ⟨h.1, (h.2.2.2.1 [.read (.readyOk 3)] 4).1⟩

/-- C10 counterexample: the claim says the derived authority is `None`
only when the Forwarded client host, the `Host` header and the URI host
are all absent; but a `Host` header that is present yet parses neither as
an authority nor as a host also yields `None`. -/
theorem request_context_authority_counterexample :
    ¬ (∀ (forwarded : Option Forwarded) (req : HttpRequest),
        (requestContextFrom forwarded req).authority = none →
        forwarded.bind (fun f => f.clientHost) = none
          ∧ req.hostHeader = none ∧ req.uri.host = none) := by
  intro hclaim
  have h := hclaim none ⟨⟨none, none, none⟩, .http11, some ⟨none, none⟩⟩ (by decide)
  exact absurd h.2.1 (by decide)

/-- C10 (amended): the derived request context prefers Forwarded facts —
protocol is the Forwarded client protocol else the URI scheme; version is
the Forwarded client version else the request's; the authority is
resolved in the order Forwarded client host, parsed `Host` header
(authority first, bare host second), parsed URI host, each completed with
the derivation's default port when it has none; and the authority is
`None` exactly when the Forwarded client host is absent, any `Host`
header present fails both parses, and any URI host present fails to
parse. -/
theorem request_context_precedence (forwarded : Option Forwarded) (req : HttpRequest) :
    (∀ f p, forwarded = some f → f.clientProto = some p →
      (requestContextFrom forwarded req).protocol = p)
    ∧ (forwarded.bind (fun f => f.clientProto) = none →
      (requestContextFrom forwarded req).protocol = schemeToProtocol req.uri.scheme)
    ∧ (∀ f v, forwarded = some f → f.clientVersion = some v →
      (requestContextFrom forwarded req).http_version = forwardedVersionToVersion v)
    ∧ (forwarded.bind (fun f => f.clientVersion) = none →
      (requestContextFrom forwarded req).http_version = req.version)
    ∧ (∀ f fa, forwarded = some f → f.clientHost = some fa →
      (requestContextFrom forwarded req).authority
        = some ⟨fa.host, fa.port.getD (requestDefaultPort forwarded req)⟩)
    ∧ (forwarded.bind (fun f => f.clientHost) = none →
      ∀ hv a, req.hostHeader = some hv → hv.asNetAuthority = some a →
      (requestContextFrom forwarded req).authority = some a)
    ∧ (forwarded.bind (fun f => f.clientHost) = none →
      ∀ hv hs, req.hostHeader = some hv → hv.asNetAuthority = none →
      hv.asHost = some hs →
      (requestContextFrom forwarded req).authority
        = some ⟨hs, requestDefaultPort forwarded req⟩)
    ∧ (forwarded.bind (fun f => f.clientHost) = none →
      (∀ hv, req.hostHeader = some hv → hv.asNetAuthority = none ∧ hv.asHost = none) →
      ∀ rh hs, req.uri.host = some rh → rh.asHost = some hs →
      (requestContextFrom forwarded req).authority
        = some ⟨hs, requestDefaultPort forwarded req⟩)
    ∧ ((requestContextFrom forwarded req).authority = none ↔
      (forwarded.bind (fun f => f.clientHost) = none
        ∧ (∀ hv, req.hostHeader = some hv → hv.asNetAuthority = none ∧ hv.asHost = none)
        ∧ (∀ rh, req.uri.host = some rh → rh.asHost = none))) := by
  refine ⟨?_, ?_, ?_, ?_, ?_, ?_, ?_, ?_, ?_⟩
  · intro f p hf hp
    subst hf
    simp only [requestContextFrom, requestProtocol]
    simp [Option.bind, hp]
  · intro hnone
    simp only [requestContextFrom, requestProtocol, hnone]
    simp
  · intro f v hf hv
    subst hf
    simp only [requestContextFrom]
    simp [Option.bind, hv]
  · intro hnone
    simp only [requestContextFrom, hnone]
    simp
  · intro f fa hf hfa
    subst hf
    simp only [requestContextFrom]
    simp [Option.bind, Option.orElse, hfa]
  · intro hA hv a hhv ha
    simp only [requestContextFrom, hA, hhv]
    simp [Option.orElse, Option.bind, ha]
  · intro hA hv hs hhv ha hh
    simp only [requestContextFrom, hA, hhv]
    simp [Option.orElse, Option.bind, ha, hh]
  · intro hA hB rh hs hrh hh
    have hBn : req.hostHeader.bind (fun hv =>
        hv.asNetAuthority.orElse (fun _ => hv.asHost.map
          (fun h2 => (⟨h2, requestDefaultPort forwarded req⟩ : NetAuthority)))) = none := by
      rcases hhv : req.hostHeader with _ | hv
      · rfl
      · have hcl := hB hv hhv
        simp [hcl.1, hcl.2, Option.orElse, Option.bind]
    simp only [requestContextFrom, hA, hBn]
    simp [Option.orElse, Option.bind, hrh, hh]
  · constructor
    · intro hnone
      rcases hA : forwarded.bind (fun f => f.clientHost) with _ | fa
      · refine ⟨rfl, ?_, ?_⟩
        · intro hv hhv
          rcases ha : hv.asNetAuthority with _ | a
          · rcases hh : hv.asHost with _ | hs
            · exact ⟨rfl, rfl⟩
            · refine absurd hnone ?_
              simp only [requestContextFrom, hA, hhv]
              simp [Option.orElse, Option.bind, ha, hh]
          · refine absurd hnone ?_
            simp only [requestContextFrom, hA, hhv]
            simp [Option.orElse, Option.bind, ha]
        · intro rh hrh
          rcases hh : rh.asHost with _ | hs
          · rfl
          · rcases hhv : req.hostHeader with _ | hv
            · refine absurd hnone ?_
              simp only [requestContextFrom, hA, hhv]
              simp [Option.orElse, Option.bind, hrh, hh]
            · rcases ha : hv.asNetAuthority with _ | a
              · rcases hh2 : hv.asHost with _ | hs2
                · refine absurd hnone ?_
                  simp only [requestContextFrom, hA, hhv]
                  simp [Option.orElse, Option.bind, ha, hh2, hrh, hh]
                · refine absurd hnone ?_
                  simp only [requestContextFrom, hA, hhv]
                  simp [Option.orElse, Option.bind, ha, hh2]
              · refine absurd hnone ?_
                simp only [requestContextFrom, hA, hhv]
                simp [Option.orElse, Option.bind, ha]
      · refine absurd hnone ?_
        simp only [requestContextFrom, hA]
        simp [Option.orElse, Option.bind]
    · rintro ⟨hA, hB, hC⟩
      have hBn : req.hostHeader.bind (fun hv =>
          hv.asNetAuthority.orElse (fun _ => hv.asHost.map
            (fun h2 => (⟨h2, requestDefaultPort forwarded req⟩ : NetAuthority)))) = none := by
        rcases hhv : req.hostHeader with _ | hv
        · rfl
        · have hcl := hB hv hhv
          simp [hcl.1, hcl.2, Option.orElse, Option.bind]
      have hCn : req.uri.host.bind (fun rh =>
          rh.asHost.map (fun h2 => (⟨h2, requestDefaultPort forwarded req⟩ : NetAuthority)))
          = none := by
        rcases hrh : req.uri.host with _ | rh
        · rfl
        · simp [hC rh hrh, Option.bind]
      simp only [requestContextFrom, hA, hBn, hCn]
      simp [Option.orElse]

/-- Witness for C10: a Forwarded fact overrides protocol and supplies the
authority (completed with the Forwarded client port as default); without
a Forwarded fact, a parsed `Host` header authority wins. -/
theorem request_context_precedence_witness :
    (requestContextFrom
        (some ⟨some .https, some 9000, some ⟨"fwd.example", none⟩, some .http2⟩)
        ⟨⟨some .http, some ⟨some "uri.example"⟩, some 8080⟩, .http11,
          some ⟨some ⟨"hdr.example", 81⟩, some "hdr.example"⟩⟩).protocol = Protocol.https
    ∧ (requestContextFrom
        (some ⟨some .https, some 9000, some ⟨"fwd.example", none⟩, some .http2⟩)
        ⟨⟨some .http, some ⟨some "uri.example"⟩, some 8080⟩, .http11,
          some ⟨some ⟨"hdr.example", 81⟩, some "hdr.example"⟩⟩).authority
      = some ⟨"fwd.example", 9000⟩
    ∧ (requestContextFrom none
        ⟨⟨some .http, some ⟨some "uri.example"⟩, some 8080⟩, .http11,
          some ⟨some ⟨"hdr.example", 81⟩, some "hdr.example"⟩⟩).authority
      = some ⟨"hdr.example", 81⟩ := by
  refine ⟨?_, ?_, ?_⟩
  · exact (request_context_precedence _ _).1 _ Protocol.https rfl rfl
  · exact (request_context_precedence _ _).2.2.2.2.1 _ ⟨"fwd.example", none⟩ rfl rfl
  · exact (request_context_precedence none _).2.2.2.2.2.1 rfl
      ⟨some ⟨"hdr.example", 81⟩, some "hdr.example"⟩ ⟨"hdr.example", 81⟩ rfl rfl

end Rama
